import Mathlib

/-!
# OptitrackViconLcmStub: relay loop, pose transform and arrival histogram

A shallow embedding of `src/OptitrackViconLcmStub.cpp`.

* Floating point values are taken over exact arithmetic: reals for the pose
  transform (a `double` that is not-a-number is `none`), rationals for the
  arrival histogram.
* `int` variables are mathematical integers; the conversion of a floating
  point value to `int` is truncation toward zero.
* The frame listener is the list of results its successive `pop` calls return;
  the asynchronous run flag and the transport's health are the readings the
  loops take of them.
-/

namespace OptitrackViconLcmStub

/-! ## Data model -/

/-- NatNet `Point3f`: three coordinates. -/
structure Point3f where
  x : ℝ
  y : ℝ
  z : ℝ

/-- NatNet `Quaternion4f`: the four components `qx qy qz qw`. -/
structure Quaternion4f where
  qx : ℝ
  qy : ℝ
  qz : ℝ
  qw : ℝ

/-- NatNet `RigidBody`, restricted to the two accessors the relay reads:
`location()` and `orientation()`. -/
structure RigidBody where
  location : Point3f
  orientation : Quaternion4f

/-- POSIX `struct timespec`. -/
structure timespec where
  tv_sec : Int
  tv_nsec : Int
  deriving DecidableEq

/-- NatNet `MocapFrame`, restricted to the accessor the relay reads:
`rigidBodies()`. -/
structure MocapFrame where
  rigidBodies : List RigidBody

/-- The LCM message `vicon_t::vicon_pos_t`: a timestamp and the array `q[6]`
of doubles. An entry `none` is a not-a-number. -/
structure vicon_pos_t where
  timestamp : Int
  q : List (Option ℝ)

/-- What one call `frameListener.pop(&valid)` hands back: the pair
`(frame, stamp)` it returns and the flag it writes to `valid`. -/
structure PopResult where
  frame : MocapFrame
  stamp : timespec
  valid : Bool

/-- How `printFrames` ends: it returns when the run flag is found cleared, or
the process ends through `exit(1)` when `lcmobj.good()` fails. -/
inductive Ending where
  | returned
  | exit1
  deriving DecidableEq

/-! ## C library functions over exact reals -/

/-- C `atan2(y, x)`: the angle of the point `(x, y)`, in `(-π, π]`, and `0` at
the origin. -/
noncomputable def atan2 (y x : ℝ) : ℝ :=
  Complex.arg ⟨x, y⟩

/-- C `asin(x)`: the arc sine on `[-1, 1]`, and a not-a-number (`none`, a
domain error) outside. -/
noncomputable def asin (x : ℝ) : Option ℝ :=
  if -1 ≤ x ∧ x ≤ 1 then some (Real.arcsin x) else none

/-! ## printFrames -/

/-- The argument handed to `asin` on line 139. -/
def pitchArg (ori : Quaternion4f) : ℝ :=
  2 * (ori.qx * ori.qz - ori.qw * ori.qy)

/-- Lines 132-148 of `printFrames`: the record `temp` built for the rigid body
`it`. -/
noncomputable def poseOf (it : RigidBody) : vicon_pos_t :=
  let loc := it.location
  let ori := it.orientation
  let euler_x : ℝ :=
    atan2 (2 * (ori.qx * ori.qy + ori.qz * ori.qw)) (1 - (2 * (ori.qy ^ 2 + ori.qz ^ 2)))
  let euler_y : Option ℝ := asin (pitchArg ori)
  let euler_z : ℝ :=
    atan2 (2 * (ori.qx * ori.qw + ori.qy * ori.qz)) (1 - (2 * (ori.qz ^ 2 + ori.qw ^ 2)))
  { timestamp := 0
    q := [some loc.x, some loc.y, some loc.z, some euler_x, euler_y, some euler_z] }

/-- Lines 150-154: the channel name streamed for the counter value `j`,
`ch << "MOCAP#" << j`. -/
def chName (j : Int) : String :=
  "MOCAP#" ++ toString j

/-- Lines 130-156: the `for` loop over `RBodies`, started with the counter at
`j`. Each body is published on the channel of the current counter value, and
the counter is incremented (`j++`). The result is the list of
`lcmobj.publish(ch_name, &temp)` calls, in order. -/
noncomputable def publishBodies : Int → List RigidBody → List (String × vicon_pos_t)
  | _, [] => []
  | j, it :: rest => (chName j, poseOf it) :: publishBodies (j + 1) rest

/-- Lines 117-171: the inner `while (true)` loop. It pops until a pop reports
`valid = false` (an exhausted list is the empty buffer, which reports the
same); every valid frame is published with the counter restarted at `1`.
Returns the publish calls and the pop results not yet consumed. -/
noncomputable def drainFrames :
    List PopResult → List (String × vicon_pos_t) × List PopResult
  | [] => ([], [])
  | p :: ps =>
    if !p.valid then ([], ps)
    else
      let r := drainFrames ps
      (publishBodies 1 p.frame.rigidBodies ++ r.1, r.2)

/-- The outcome of a run of `printFrames`: the publish calls made, the pop
results left unconsumed, and how the run ended. -/
structure Relay where
  published : List (String × vicon_pos_t)
  buffer : List PopResult
  ending : Ending

/-- Lines 106-176: `printFrames`. `goods` holds, for each outer iteration that
finds `Globals::run` set, what `lcmobj.good()` returns there; when it is
exhausted the run flag has been cleared. `pops` are the results of the
successive `frameListener.pop` calls. -/
noncomputable def printFrames : List Bool → List PopResult → Relay
  | [], ps => ⟨[], ps, Ending.returned⟩
  | good :: more, ps =>
    if !good then ⟨[], ps, Ending.exit1⟩
    else
      let d := drainFrames ps
      let r := printFrames more d.2
      ⟨d.1 ++ r.published, r.buffer, r.ending⟩

/-! ## timeStats -/

/-- Lines 209-213: the inter-frame time in milliseconds. -/
def diffMs (current prev : timespec) : ℚ :=
  |((current.tv_sec : ℚ) - (prev.tv_sec : ℚ)) * 1000
    + ((current.tv_nsec : ℚ) - (prev.tv_nsec : ℚ)) / 1000000|

/-- Conversion of a floating point value to `int`: the fractional part is
discarded (truncation toward zero). -/
def truncToInt (v : ℚ) : Int :=
  if 0 ≤ v then ⌊v⌋ else ⌈v⌉

/-- Lines 215-219: the bucket of a time difference. -/
def binOf (diff_ms diffMin_ms diffMax_ms : ℚ) (bins : Int) : Int :=
  let bin := truncToInt ((diff_ms - diffMin_ms) / (diffMax_ms - diffMin_ms) * ((bins + 1 : Int) : ℚ))
  if bin < 0 then 0
  else if bin ≥ bins then bins - 1
  else bin

/-- Line 221: `hist[bin] += 1`. -/
def bump (hist : List Nat) (bin : Int) : List Nat :=
  List.modify (fun c => c + 1) bin.toNat hist

/-- The local variables of `timeStats` that live across iterations. -/
structure StatsState where
  hist : List Nat
  current : timespec
  prev : timespec
  deriving DecidableEq

/-- Lines 198-222: the inner `while (true)` loop of `timeStats`. Each pass
first copies `current` to `prev`, then pops; an invalid pop leaves the loop,
a valid one stores its stamp in `current` and counts the difference. -/
def statsDrain (diffMin_ms diffMax_ms : ℚ) (bins : Int) :
    StatsState → List PopResult → StatsState × List PopResult
  | s, [] => ({ s with prev := s.current }, [])
  | s, p :: ps =>
    let s1 : StatsState := { s with prev := s.current }
    if !p.valid then (s1, ps)
    else
      let s2 : StatsState := { s1 with current := p.stamp }
      let diff_ms := diffMs s2.current s2.prev
      let bin := binOf diff_ms diffMin_ms diffMax_ms bins
      statsDrain diffMin_ms diffMax_ms bins { s2 with hist := bump s2.hist bin } ps

/-- Lines 196-226: the outer loop, for `n` iterations that find `Globals::run`
set. -/
def statsLoop (diffMin_ms diffMax_ms : ℚ) (bins : Int) :
    Nat → StatsState → List PopResult → StatsState
  | 0, s, _ => s
  | n + 1, s, ps =>
    let r := statsDrain diffMin_ms diffMax_ms bins s ps
    statsLoop diffMin_ms diffMax_ms bins n r.1 r.2

/-- Line 232: the value printed in the first column for bucket `bin`. -/
def reportValue (diffMin_ms diffMax_ms : ℚ) (bins : Int) (bin : Nat) : ℚ :=
  diffMin_ms + (diffMax_ms - diffMin_ms) * (1 / 2 + (bin : ℚ)) / (bins : ℚ)

/-- Lines 184-226 of `timeStats`: the histogram when the outer loop is left.
`current0` and `prev0` are the values the uninitialised locals `current` and
`prev` hold on entry, `n` the number of outer iterations that find the run
flag set, `pops` the results of the successive pops. The histogram starts at
zero (`memset`). -/
def histOf (current0 prev0 : timespec) (n : Nat) (pops : List PopResult)
    (diffMin_ms diffMax_ms : ℚ) (bins : Int) : List Nat :=
  (statsLoop diffMin_ms diffMax_ms bins n
    ⟨List.replicate bins.toNat 0, current0, prev0⟩ pops).hist

/-- Lines 182-233: `timeStats`. The result is what the final loop prints: one
`(time diff, count)` line per bucket, in ascending order. -/
def timeStats (current0 prev0 : timespec) (n : Nat) (pops : List PopResult)
    (diffMin_ms diffMax_ms : ℚ) (bins : Int) : List (ℚ × Nat) :=
  let hist := histOf current0 prev0 n pops diffMin_ms diffMax_ms bins
  (List.range bins.toNat).map fun bin =>
    (reportValue diffMin_ms diffMax_ms bins bin, hist.getD bin 0)

/-! ## The specification's words -/

/-- The Channel Namer of the specification: the name for the body at 0-based
`index` is `"MOCAP#"` followed by the decimal rendering of `index + 1`. -/
def channelName (index : Nat) : String :=
  "MOCAP#" ++ Nat.repr (index + 1)

/-- The publish calls the specification asks for one frame: body `i` of the
list goes out on `channelName i` with its pose record, in list order. -/
noncomputable def framePublishes (bodies : List RigidBody) : List (String × vicon_pos_t) :=
  bodies.enum.map fun ib => (channelName ib.1, poseOf ib.2)

/-- The publish calls the specification asks for a sequence of polls: those of
each frame in delivery order, and none for a poll that reports no frame. -/
noncomputable def relayed (pops : List PopResult) : List (String × vicon_pos_t) :=
  pops.flatMap fun p => if p.valid then framePublishes p.frame.rigidBodies else []

/-- Number of polls that report no frame. -/
def noFrames (pops : List PopResult) : Nat :=
  pops.countP fun p => !p.valid

/-- Value of a string of decimal digits, most significant digit first. -/
def digitsValue (ds : List Char) : Nat :=
  ds.foldl (fun acc c => acc * 10 + (c.toNat - 48)) 0

/-! ## Sample inputs -/

/-- A rigid body at the origin with the identity orientation. -/
def bodyA : RigidBody := ⟨⟨0, 0, 0⟩, ⟨0, 0, 0, 1⟩⟩

/-- A rigid body at `(1, 2, 3)` with the identity orientation. -/
def bodyB : RigidBody := ⟨⟨1, 2, 3⟩, ⟨0, 0, 0, 1⟩⟩

/-- A rigid body at `(4, 5, 6)` with orientation `(1, 0, 0, 0)`. -/
def bodyC : RigidBody := ⟨⟨4, 5, 6⟩, ⟨1, 0, 0, 0⟩⟩

/-- A valid pop result carrying the given bodies and stamp. -/
def framePop (bodies : List RigidBody) (stamp : timespec) : PopResult :=
  ⟨⟨bodies⟩, stamp, true⟩

/-- A pop result that reports no frame. -/
def emptyPop : PopResult :=
  ⟨⟨[]⟩, ⟨0, 0⟩, false⟩

/-! ## Channel names -/

theorem digitChar_value (k : Nat) (h : k < 10) : (Nat.digitChar k).toNat - 48 = k := by
  interval_cases k <;> rfl

theorem toDigitsCore_split (fuel : Nat) : ∀ (n : Nat) (ds : List Char), n < fuel →
    ∃ front, Nat.toDigitsCore 10 fuel n ds = front ++ ds ∧ digitsValue front = n := by
  induction fuel with
  | zero => intro n ds h; omega
  | succ fuel ih =>
    intro n ds h
    simp only [Nat.toDigitsCore]
    split_ifs with h0
    · refine ⟨[Nat.digitChar (n % 10)], rfl, ?_⟩
      have hn : n < 10 := by omega
      simp [digitsValue, digitChar_value (n % 10) (Nat.mod_lt _ (by decide))]
      omega
    · have hlt : n / 10 < fuel := by omega
      obtain ⟨front, hfront, hval⟩ := ih (n / 10) (Nat.digitChar (n % 10) :: ds) hlt
      refine ⟨front ++ [Nat.digitChar (n % 10)], by simp [hfront], ?_⟩
      unfold digitsValue at hval ⊢
      rw [List.foldl_append, hval]
      simp [digitChar_value (n % 10) (Nat.mod_lt _ (by decide))]
      omega

theorem digitsValue_toDigits (n : Nat) : digitsValue (Nat.toDigits 10 n) = n := by
  obtain ⟨front, hfront, hval⟩ := toDigitsCore_split (n + 1) n [] (Nat.lt_succ_self n)
  unfold Nat.toDigits
  rw [hfront, List.append_nil, hval]

theorem repr_injective : Function.Injective Nat.repr := by
  intro a b h
  have h2 : Nat.toDigits 10 a = Nat.toDigits 10 b := by
    have := congrArg String.data h
    simpa [Nat.repr, List.asString] using this
  have := congrArg digitsValue h2
  simpa [digitsValue_toDigits] using this

theorem mocap_append_injective : Function.Injective (fun s : String => "MOCAP#" ++ s) := by
  intro a b h
  have := congrArg String.data h
  simp only [String.data_append, List.append_cancel_left_eq] at this
  exact String.ext this

theorem channelName_injective : Function.Injective channelName := by
  intro a b h
  have h1 : Nat.repr (a + 1) = Nat.repr (b + 1) := mocap_append_injective h
  have h2 := repr_injective h1
  omega

theorem chName_natCast (n : Nat) : chName (n : Int) = "MOCAP#" ++ Nat.repr n := rfl

theorem publishBodies_enumFrom (bodies : List RigidBody) : ∀ k : Nat,
    publishBodies ((k : Int) + 1) bodies
      = (bodies.enumFrom k).map fun ib => (channelName ib.1, poseOf ib.2) := by
  induction bodies with
  | nil => intro k; rfl
  | cons b rest ih =>
    intro k
    have hk : ((k : Int) + 1) + 1 = ((k + 1 : Nat) : Int) + 1 := by push_cast; ring
    have hc : chName ((k : Int) + 1) = channelName k := chName_natCast (k + 1)
    simp only [publishBodies, List.enumFrom_cons, List.map_cons, hk, ih (k + 1), hc]

theorem publishBodies_one (bodies : List RigidBody) :
    publishBodies 1 bodies = framePublishes bodies := by
  have := publishBodies_enumFrom bodies 0
  simpa [framePublishes, List.enum] using this

theorem framePublishes_channels (bodies : List RigidBody) :
    (framePublishes bodies).map Prod.fst = (List.range bodies.length).map channelName := by
  rw [← List.enum_map_fst bodies]
  simp only [framePublishes, List.map_map, Function.comp_def]

/-- Claim C4: the bodies of a frame are published, in list order, on the
channels `"MOCAP#"` followed by the decimal rendering of `i + 1` for the
0-based index `i`; the naming is injective, so the channels of one frame are
pairwise distinct; a frame of three bodies uses MOCAP#1, MOCAP#2, MOCAP#3. -/
theorem channel_names_injective (bodies : List RigidBody) :
    (publishBodies 1 bodies).map Prod.fst
        = (List.range bodies.length).map (fun i => "MOCAP#" ++ Nat.repr (i + 1))
    ∧ Function.Injective (fun i : Nat => "MOCAP#" ++ Nat.repr (i + 1))
    ∧ ((publishBodies 1 bodies).map Prod.fst).Nodup
    ∧ (publishBodies 1 [bodyA, bodyB, bodyC]).map Prod.fst = ["MOCAP#1", "MOCAP#2", "MOCAP#3"] := by
  have hmap : (publishBodies 1 bodies).map Prod.fst
      = (List.range bodies.length).map channelName := by
    rw [publishBodies_one, framePublishes_channels]
  refine ⟨hmap, channelName_injective, ?_, ?_⟩
  · rw [hmap]
    exact (List.nodup_range _).map channelName_injective
  · rw [publishBodies_one, framePublishes_channels]
    decide

/-! ## Relay loop -/

theorem relayed_append (a b : List PopResult) : relayed (a ++ b) = relayed a ++ relayed b := by
  simp [relayed]

theorem drainFrames_split (pops : List PopResult) :
    ∃ delivered, delivered ++ (drainFrames pops).2 = pops
      ∧ (drainFrames pops).1 = relayed delivered := by
  induction pops with
  | nil => exact ⟨[], rfl, rfl⟩
  | cons p ps ih =>
    obtain ⟨del, hdel, hpub⟩ := ih
    cases hv : p.valid with
    | false =>
      refine ⟨[p], ?_, ?_⟩
      · simp [drainFrames, hv]
      · simp [drainFrames, hv, relayed]
    | true =>
      refine ⟨p :: del, ?_, ?_⟩
      · simp [drainFrames, hv, hdel]
      · simp [drainFrames, hv, hpub, relayed, publishBodies_one]

theorem printFrames_split (goods : List Bool) : ∀ pops : List PopResult,
    ∃ delivered, delivered ++ (printFrames goods pops).buffer = pops
      ∧ (printFrames goods pops).published = relayed delivered := by
  induction goods with
  | nil => intro pops; exact ⟨[], rfl, rfl⟩
  | cons g more ih =>
    intro pops
    cases g with
    | false => exact ⟨[], rfl, rfl⟩
    | true =>
      obtain ⟨d1, h1, p1⟩ := drainFrames_split pops
      obtain ⟨d2, h2, p2⟩ := ih (drainFrames pops).2
      refine ⟨d1 ++ d2, ?_, ?_⟩
      · simp only [printFrames, Bool.not_true, Bool.false_eq_true, if_false,
          List.append_assoc, h2, h1]
      · simp only [printFrames, Bool.not_true, Bool.false_eq_true, if_false,
          relayed_append, p1, p2]

theorem drainFrames_rest (pops : List PopResult) :
    (drainFrames pops).2 = [] ∨ noFrames (drainFrames pops).2 + 1 = noFrames pops := by
  induction pops with
  | nil => left; rfl
  | cons p ps ih =>
    cases hv : p.valid with
    | false => right; simp [drainFrames, hv, noFrames]
    | true =>
      rcases ih with h | h
      · left; simp [drainFrames, hv, h]
      · right; simpa [drainFrames, hv, noFrames] using h

theorem printFrames_nil (goods : List Bool) : (printFrames goods []).buffer = [] := by
  induction goods with
  | nil => rfl
  | cons g more ih =>
    cases g with
    | false => rfl
    | true => simpa [printFrames, drainFrames] using ih

theorem printFrames_buffer_nil (goods : List Bool) : ∀ pops : List PopResult,
    (∀ g ∈ goods, g = true) → noFrames pops < goods.length →
    (printFrames goods pops).buffer = [] := by
  induction goods with
  | nil => intro pops _ h; simp at h
  | cons g more ih =>
    intro pops hg hn
    have hgt : g = true := hg g (List.mem_cons_self _ _)
    subst hgt
    have hmore : ∀ g ∈ more, g = true := fun g hmem => hg g (List.mem_cons_of_mem _ hmem)
    simp only [printFrames, Bool.not_true, Bool.false_eq_true, if_false]
    rcases drainFrames_rest pops with h | h
    · rw [h]; exact printFrames_nil more
    · apply ih _ hmore
      simp only [List.length_cons] at hn
      omega

theorem framePublishes_timestamps (bodies : List RigidBody) :
    ∀ m ∈ framePublishes bodies, m.2.timestamp = 0 := by
  intro m hm
  simp only [framePublishes, List.mem_map] at hm
  obtain ⟨ib, _, rfl⟩ := hm
  rfl

theorem relayed_timestamps (pops : List PopResult) :
    ∀ m ∈ relayed pops, m.2.timestamp = 0 := by
  intro m hm
  simp only [relayed, List.mem_flatMap] at hm
  obtain ⟨p, _, hp⟩ := hm
  split_ifs at hp
  · exact framePublishes_timestamps _ m hp
  · simp at hp

/-- Claim C1: the publish calls of `printFrames` are exactly the concatenation,
in delivery order, over the frames it popped, of the calls
`(MOCAP#1, pose b_0), ..., (MOCAP#k, pose b_{k-1})` for the frame's bodies,
with none for a poll that reports no frame. This holds for the polls consumed
by any run, and a run whose transport stays good for more outer iterations
than there are empty polls consumes every poll. -/
theorem printFrames_publish_sequence (goods : List Bool) (pops : List PopResult) :
    (∃ delivered, delivered ++ (printFrames goods pops).buffer = pops
      ∧ (printFrames goods pops).published = relayed delivered)
    ∧ ((∀ g ∈ goods, g = true) → noFrames pops < goods.length →
        (printFrames goods pops).buffer = []
          ∧ (printFrames goods pops).published = relayed pops) := by
  refine ⟨printFrames_split goods pops, fun hg hn => ?_⟩
  have hb := printFrames_buffer_nil goods pops hg hn
  obtain ⟨d, hd, hp⟩ := printFrames_split goods pops
  rw [hb, List.append_nil] at hd
  exact ⟨hb, hd ▸ hp⟩

/-- Frames `[A, B]` then `[C]`, with an empty poll in between, are published as
`(MOCAP#1, A), (MOCAP#2, B), (MOCAP#1, C)`. -/
theorem printFrames_publish_sequence_witness :
    (printFrames [true, true]
        [framePop [bodyA, bodyB] ⟨10, 0⟩, emptyPop, framePop [bodyC] ⟨10, 5000000⟩]).published
      = [("MOCAP#1", poseOf bodyA), ("MOCAP#2", poseOf bodyB), ("MOCAP#1", poseOf bodyC)] := by
  have h := (printFrames_publish_sequence [true, true]
    [framePop [bodyA, bodyB] ⟨10, 0⟩, emptyPop, framePop [bodyC] ⟨10, 5000000⟩]).2
    (by simp) (by decide)
  rw [h.2]
  have h1 : channelName 0 = "MOCAP#1" := by decide
  have h2 : channelName 1 = "MOCAP#2" := by decide
  simp [relayed, framePublishes, framePop, emptyPop, List.enum, List.enumFrom, h1, h2]

/-! ## Pose transform -/

theorem atan2_zero_one : atan2 0 1 = 0 := by
  have : (⟨1, 0⟩ : ℂ) = 1 := by apply Complex.ext <;> simp
  simp [atan2, this]

theorem atan2_zero_neg_one : atan2 0 (-1) = Real.pi := by
  have : (⟨-1, 0⟩ : ℂ) = -1 := by apply Complex.ext <;> simp
  simp [atan2, this]

theorem atan2_abs_le (y x : ℝ) : |atan2 y x| ≤ Real.pi :=
  abs_le.mpr ⟨(Complex.neg_pi_lt_arg _).le, Complex.arg_le_pi _⟩

theorem asin_of_mem {x : ℝ} (h : -1 ≤ x ∧ x ≤ 1) : asin x = some (Real.arcsin x) := by
  simp [asin, h]

theorem pitchArg_unit (ori : Quaternion4f)
    (h : ori.qx ^ 2 + ori.qy ^ 2 + ori.qz ^ 2 + ori.qw ^ 2 = 1) :
    -1 ≤ pitchArg ori ∧ pitchArg ori ≤ 1 := by
  unfold pitchArg
  constructor
  · nlinarith [sq_nonneg (ori.qx + ori.qz), sq_nonneg (ori.qw - ori.qy)]
  · nlinarith [sq_nonneg (ori.qx - ori.qz), sq_nonneg (ori.qw + ori.qy)]

theorem poseOf_unit (loc : Point3f) (ori : Quaternion4f)
    (h : ori.qx ^ 2 + ori.qy ^ 2 + ori.qz ^ 2 + ori.qw ^ 2 = 1) :
    ∃ roll pitch yaw : ℝ,
      (poseOf ⟨loc, ori⟩).q
          = [some loc.x, some loc.y, some loc.z, some roll, some pitch, some yaw]
        ∧ |roll| ≤ Real.pi ∧ |pitch| ≤ Real.pi / 2 ∧ |yaw| ≤ Real.pi
        ∧ Real.sin pitch = 2 * (ori.qx * ori.qz - ori.qw * ori.qy) := by
  have hmem := pitchArg_unit ori h
  refine ⟨atan2 (2 * (ori.qx * ori.qy + ori.qz * ori.qw)) (1 - (2 * (ori.qy ^ 2 + ori.qz ^ 2))),
    Real.arcsin (pitchArg ori),
    atan2 (2 * (ori.qx * ori.qw + ori.qy * ori.qz)) (1 - (2 * (ori.qz ^ 2 + ori.qw ^ 2))),
    ?_, atan2_abs_le _ _, ?_, atan2_abs_le _ _, ?_⟩
  · simp only [poseOf, asin_of_mem hmem]
  · exact abs_le.mpr ⟨Real.neg_pi_div_two_le_arcsin _, Real.arcsin_le_pi_div_two _⟩
  · rw [Real.sin_arcsin hmem.1 hmem.2]; rfl

/-- Claim C2: the record built for a rigid body holds the location unchanged
in `q[0..2]`, roll, pitch and yaw by the three formulas in `q[3..5]`, and the
timestamp `0`; every message a run publishes has timestamp `0`, whatever the
stamps of the frames. -/
theorem poseOf_record (loc : Point3f) (ori : Quaternion4f)
    (goods : List Bool) (pops : List PopResult) :
    (poseOf ⟨loc, ori⟩).q =
      [some loc.x, some loc.y, some loc.z,
        some (atan2 (2 * (ori.qx * ori.qy + ori.qz * ori.qw)) (1 - 2 * (ori.qy ^ 2 + ori.qz ^ 2))),
        asin (2 * (ori.qx * ori.qz - ori.qw * ori.qy)),
        some (atan2 (2 * (ori.qx * ori.qw + ori.qy * ori.qz)) (1 - 2 * (ori.qz ^ 2 + ori.qw ^ 2)))]
    ∧ (poseOf ⟨loc, ori⟩).timestamp = 0
    ∧ ((printFrames goods pops).published.map fun m => m.2.timestamp)
        = List.replicate (printFrames goods pops).published.length 0 := by
  refine ⟨rfl, rfl, ?_⟩
  obtain ⟨d, _, hp⟩ := printFrames_split goods pops
  rw [List.eq_replicate_iff]
  refine ⟨by simp, ?_⟩
  intro t ht
  simp only [List.mem_map] at ht
  obtain ⟨m, hm, rfl⟩ := ht
  rw [hp] at hm
  exact relayed_timestamps d m hm

/-- Claim C3, evaluated: one frame with one body at `(1, 2, 3)` and the
identity orientation `(qx, qy, qz, qw) = (0, 0, 0, 1)` is published once, on
MOCAP#1, with roll `0`, pitch `0` and yaw `π` (not `0`). -/
theorem printFrames_identity_yaw :
    (printFrames [true] [⟨⟨[⟨⟨1, 2, 3⟩, ⟨0, 0, 0, 1⟩⟩]⟩, ⟨0, 0⟩, true⟩]).published
      = [("MOCAP#1", ⟨0, [some 1, some 2, some 3, some 0, some 0, some Real.pi]⟩)]
    ∧ Real.pi ≠ 0 := by
  have hn : chName 1 = "MOCAP#1" := by decide
  refine ⟨?_, Real.pi_ne_zero⟩
  simp [printFrames, drainFrames, publishBodies, poseOf, hn, pitchArg, asin, atan2_zero_one]
  norm_num [atan2_zero_neg_one]

/-- Claim C5: for a unit quaternion the argument handed to `asin` lies in
`[-1, 1]`, so roll, pitch and yaw are all numbers: roll and yaw within
`[-π, π]`, pitch within `[-π/2, π/2]` with `sin pitch` equal to the argument. -/
theorem poseOf_unit_finite (loc : Point3f) (ori : Quaternion4f)
    (h : ori.qx ^ 2 + ori.qy ^ 2 + ori.qz ^ 2 + ori.qw ^ 2 = 1) :
    (-1 ≤ 2 * (ori.qx * ori.qz - ori.qw * ori.qy)
      ∧ 2 * (ori.qx * ori.qz - ori.qw * ori.qy) ≤ 1)
    ∧ ∃ roll pitch yaw : ℝ,
      (poseOf ⟨loc, ori⟩).q
          = [some loc.x, some loc.y, some loc.z, some roll, some pitch, some yaw]
        ∧ |roll| ≤ Real.pi ∧ |pitch| ≤ Real.pi / 2 ∧ |yaw| ≤ Real.pi
        ∧ Real.sin pitch = 2 * (ori.qx * ori.qz - ori.qw * ori.qy) :=
  ⟨pitchArg_unit ori h, poseOf_unit loc ori h⟩

/-- At the gimbal-lock boundary `(1/2, -1/2, 1/2, 1/2)`, where
`qx*qz - qw*qy = 1/2`, the pose is made of numbers. -/
theorem poseOf_unit_finite_witness :
    (1 / 2 : ℝ) * (1 / 2) - (1 / 2) * (-1 / 2) = 1 / 2
    ∧ ∃ roll pitch yaw : ℝ,
      (poseOf ⟨⟨1, 2, 3⟩, ⟨1 / 2, -1 / 2, 1 / 2, 1 / 2⟩⟩).q
          = [some 1, some 2, some 3, some roll, some pitch, some yaw]
        ∧ |roll| ≤ Real.pi ∧ |pitch| ≤ Real.pi / 2 ∧ |yaw| ≤ Real.pi
        ∧ Real.sin pitch = 2 * ((1 / 2 : ℝ) * (1 / 2) - (1 / 2) * (-1 / 2)) :=
  ⟨by norm_num,
    (poseOf_unit_finite ⟨1, 2, 3⟩ ⟨1 / 2, -1 / 2, 1 / 2, 1 / 2⟩ (by norm_num)).2⟩

theorem truncToInt_nonneg {v : ℚ} (h : 0 ≤ v) : truncToInt v = ⌊v⌋ := by
  simp [truncToInt, h]

theorem truncToInt_neg {v : ℚ} (h : v < 0) : truncToInt v = ⌈v⌉ := by
  simp [truncToInt, not_le.mpr h]

theorem binOf_floor (d mn mx : ℚ) (bins : Int) (hb : 1 ≤ bins) :
    binOf d mn mx bins
      = max 0 (min (bins - 1) ⌊(d - mn) / (mx - mn) * ((bins : ℚ) + 1)⌋) := by
  have hcast : (((bins + 1 : Int)) : ℚ) = (bins : ℚ) + 1 := by push_cast; ring
  unfold binOf
  rw [hcast]
  generalize (d - mn) / (mx - mn) * ((bins : ℚ) + 1) = x
  rcases le_or_lt 0 x with hx | hx
  · have h0 : 0 ≤ ⌊x⌋ := Int.floor_nonneg.mpr hx
    simp only [truncToInt_nonneg hx]
    split_ifs <;> simp [max_def, min_def] <;> omega
  · have h0 : ⌊x⌋ < 0 := Int.floor_lt.mpr (by simpa using hx)
    have h1 : ⌈x⌉ ≤ 0 := Int.ceil_le.mpr (by simpa using hx.le)
    simp only [truncToInt_neg hx]
    split_ifs <;> simp [max_def, min_def] <;> omega

theorem bins_cast_nonneg (bins : Int) (hb : 1 ≤ bins) : (0 : ℚ) ≤ (bins : ℚ) + 1 := by
  have : (1 : ℚ) ≤ (bins : ℚ) := by exact_mod_cast hb
  linarith

theorem binOf_below (d mn mx : ℚ) (bins : Int) (hmm : mn < mx) (hb : 1 ≤ bins)
    (hd : d ≤ mn) : binOf d mn mx bins = 0 := by
  rw [binOf_floor d mn mx bins hb]
  have hx : (d - mn) / (mx - mn) * ((bins : ℚ) + 1) ≤ 0 :=
    mul_nonpos_of_nonpos_of_nonneg
      (div_nonpos_of_nonpos_of_nonneg (by linarith) (by linarith)) (bins_cast_nonneg bins hb)
  have hfl : ⌊(d - mn) / (mx - mn) * ((bins : ℚ) + 1)⌋ ≤ 0 := by
    have := Int.floor_le_floor hx
    simpa using this
  exact max_eq_left (le_trans (min_le_right _ _) hfl)

theorem binOf_above (d mn mx : ℚ) (bins : Int) (hmm : mn < mx) (hb : 1 ≤ bins)
    (hd : mx ≤ d) : binOf d mn mx bins = bins - 1 := by
  rw [binOf_floor d mn mx bins hb]
  have hpos := bins_cast_nonneg bins hb
  have h1 : 1 ≤ (d - mn) / (mx - mn) := by
    rw [le_div_iff₀ (by linarith)]; linarith
  have hx : (bins : ℚ) + 1 ≤ (d - mn) / (mx - mn) * ((bins : ℚ) + 1) := by
    nlinarith
  have hfl : bins + 1 ≤ ⌊(d - mn) / (mx - mn) * ((bins : ℚ) + 1)⌋ := by
    apply Int.le_floor.mpr
    push_cast
    exact hx
  rw [min_eq_left (by omega), max_eq_right (by omega)]

theorem binOf_eq_of_floor (d mn mx : ℚ) (bins b : Int) (hb0 : 0 ≤ b) (hb1 : b < bins)
    (hlo : (b : ℚ) ≤ (d - mn) / (mx - mn) * ((bins : ℚ) + 1))
    (hhi : (d - mn) / (mx - mn) * ((bins : ℚ) + 1) < (b : ℚ) + 1) :
    binOf d mn mx bins = b := by
  rw [binOf_floor d mn mx bins (by omega)]
  have : ⌊(d - mn) / (mx - mn) * ((bins : ℚ) + 1)⌋ = b := Int.floor_eq_iff.mpr ⟨hlo, hhi⟩
  rw [this, min_eq_right (by omega), max_eq_right hb0]

theorem bump_sum (hist : List Nat) (bin : Int) (h : bin.toNat < hist.length) :
    (bump hist bin).sum = hist.sum + 1 := by
  unfold bump
  generalize bin.toNat = k at h
  induction hist generalizing k with
  | nil => simp at h
  | cons a t ih =>
    cases k with
    | zero => simp; omega
    | succ k =>
      simp only [List.modify_succ_cons, List.sum_cons]
      rw [ih k (by simpa using h)]
      omega

theorem statsLoop_nil (mn mx : ℚ) (bins : Int) (k : Nat) :
    ∀ s : StatsState, (statsLoop mn mx bins k s []).hist = s.hist := by
  induction k with
  | zero => intro s; rfl
  | succ k ih => intro s; simp [statsLoop, statsDrain, ih]

theorem histOf_single (c0 p0 : timespec) (n : Nat) (f : MocapFrame) (t : timespec)
    (mn mx : ℚ) (bins : Int) :
    histOf c0 p0 (n + 1) [⟨f, t, true⟩] mn mx bins
      = bump (List.replicate bins.toNat 0) (binOf (diffMs t c0) mn mx bins) := by
  simp [histOf, statsLoop, statsDrain, statsLoop_nil]

/-- Claim C9, evaluated: with min 0.5, max 7.0 and 100 bins the difference
6.9 ms is counted in bucket 99, whose equal-width interval starts at
`0.5 + 99 * 0.065 = 6.935`; the value printed for bucket 99 is 6.9675, while
bucket 99 counts every difference from `0.5 + 99 * 6.5 / 101` (about 6.87)
upward, also those beyond 7.0. -/
theorem binOf_not_equal_width :
    binOf (69 / 10) (1 / 2) 7 100 = 99
    ∧ ¬ ((1 / 2 : ℚ) + 99 * ((7 - 1 / 2) / 100) ≤ 69 / 10)
    ∧ reportValue (1 / 2) 7 100 99 = 2787 / 400
    ∧ binOf 7 (1 / 2) 7 100 = 99
    ∧ binOf 1000 (1 / 2) 7 100 = 99 := by
  refine ⟨?_, by norm_num, by norm_num [reportValue], ?_, ?_⟩
  · apply binOf_eq_of_floor <;> norm_num
  · rw [binOf_above _ _ _ _ (by norm_num) (by norm_num) (by norm_num)]; norm_num
  · rw [binOf_above _ _ _ _ (by norm_num) (by norm_num) (by norm_num)]; norm_num

/-- Claim C10, evaluated: a run that receives a single frame, stamped 5 s,
counts one difference although there is no pair of frames; the bucket is that
of the distance to the value the local `current` held on entry: bucket 99 when
it held `0 s`, bucket 0 when it held `5 s`. Three frames 2 ms apart, with an
empty poll among them, give three counts: two in bucket 23 for the two pairs,
and one more for the first frame. -/
theorem histOf_first_frame_counted :
    (histOf ⟨0, 0⟩ ⟨0, 0⟩ 1 [framePop [] ⟨5, 0⟩] (1 / 2) 7 100).sum = 1
    ∧ (histOf ⟨0, 0⟩ ⟨0, 0⟩ 1 [framePop [] ⟨5, 0⟩] (1 / 2) 7 100)[99]? = some 1
    ∧ (histOf ⟨5, 0⟩ ⟨0, 0⟩ 1 [framePop [] ⟨5, 0⟩] (1 / 2) 7 100)[99]? = some 0
    ∧ (histOf ⟨5, 0⟩ ⟨0, 0⟩ 1 [framePop [] ⟨5, 0⟩] (1 / 2) 7 100)[0]? = some 1
    ∧ (histOf ⟨0, 0⟩ ⟨0, 0⟩ 2
        [framePop [] ⟨5, 0⟩, framePop [] ⟨5, 2000000⟩, emptyPop, framePop [] ⟨5, 4000000⟩]
        (1 / 2) 7 100).sum = 3
    ∧ (histOf ⟨0, 0⟩ ⟨0, 0⟩ 2
        [framePop [] ⟨5, 0⟩, framePop [] ⟨5, 2000000⟩, emptyPop, framePop [] ⟨5, 4000000⟩]
        (1 / 2) 7 100)[23]? = some 2 := by
  have h1 : binOf (diffMs ⟨5, 0⟩ ⟨0, 0⟩) (1 / 2) 7 100 = 99 := by
    rw [binOf_above _ _ _ _ (by norm_num) (by norm_num) (by norm_num [diffMs])]; norm_num
  have h2 : binOf (diffMs ⟨5, 0⟩ ⟨5, 0⟩) (1 / 2) 7 100 = 0 := by
    rw [binOf_below _ _ _ _ (by norm_num) (by norm_num) (by norm_num [diffMs])]
  have h3 : binOf (diffMs ⟨5, 2000000⟩ ⟨5, 0⟩) (1 / 2) 7 100 = 23 := by
    apply binOf_eq_of_floor <;> norm_num [diffMs]
  have h4 : binOf (diffMs ⟨5, 4000000⟩ ⟨5, 2000000⟩) (1 / 2) 7 100 = 23 := by
    apply binOf_eq_of_floor <;> norm_num [diffMs]
  simp only [histOf, statsLoop, statsDrain, framePop, emptyPop, Bool.not_true, Bool.not_false,
    Bool.false_eq_true, if_false, if_true, h1, h2, h3, h4]
  refine ⟨?_, ?_, ?_, ?_, ?_, ?_⟩
  · rw [bump_sum _ _ (by simp)]; simp
  · simp [bump, List.getElem?_modify]
  · simp [bump, List.getElem?_modify]
  · simp [bump, List.getElem?_modify]
  · rw [bump_sum, bump_sum, bump_sum] <;> simp [bump]
  · simp [bump, List.getElem?_modify]

end OptitrackViconLcmStub
